import Mathlib

/-!
Verification of the 2.5D raycasting engine in src/main.py.

Python floats are rational values, so all continuous quantities of the
program (positions, distances, angles, times) are modelled as exact
rationals and every definition is executable.  The value of math.pi used
by the program is the IEEE-754 double nearest to pi, itself a rational
number, reproduced exactly below as Constants.float_pi.  Rays are cast
along direction vectors (ray_dx, ray_dy); in the program these are
(cos angle, sin angle), which we model as an arbitrary pair, adding the
unit-length hypothesis ray_dx^2 + ray_dy^2 = 1 where a claim quantifies
over angles.
-/

namespace Constants

/-- Constants.NUM_RAYS = 800 -/
def NUM_RAYS : ℕ := 800

/-- the exact rational value of the IEEE-754 double math.pi -/
def float_pi : ℚ := 884279719003555 / 281474976710656

/-- Constants.FOV = math.pi / 3 -/
def FOV : ℚ := float_pi / 3

/-- Constants.RENDER_DISTANCE = 20 -/
def RENDER_DISTANCE : ℚ := 20

/-- Constants.MOVEMENT_SPEED = 0.15 -/
def MOVEMENT_SPEED : ℚ := 0.15

/-- Constants.ROTATION_SPEED = 0.08 -/
def ROTATION_SPEED : ℚ := 0.08

/-- Constants.WALL_HEIGHT_SCALE = 600 -/
def WALL_HEIGHT_SCALE : ℚ := 600

/-- Constants.MIN_BRIGHTNESS = 0.2 -/
def MIN_BRIGHTNESS : ℚ := 0.2

end Constants

/-- Python int(q) truncates toward zero: floor for nonnegative values,
ceiling for negative ones. -/
def truncInt (q : ℚ) : ℤ := if q < 0 then ⌈q⌉ else ⌊q⌋

/-- Player: x, y continuous position, direction in radians
(Player.__init__ in src/main.py). -/
structure Player where
  x : ℚ
  y : ℚ
  direction : ℚ
deriving DecidableEq

/-- Player.move: self.x += dx; self.y += dy -/
def Player.move (p : Player) (dx dy : ℚ) : Player :=
  { p with x := p.x + dx, y := p.y + dy }

/-- Python's float modulo a % b = a - b * floor(a / b) (exact-rational
model); used by Player.rotate for the 0..2*pi normalization. -/
def fmodQ (a b : ℚ) : ℚ := a - b * ⌊a / b⌋

/-- Player.rotate: self.direction += angle_delta;
self.direction %= 2 * math.pi -/
def Player.rotate (p : Player) (angle_delta : ℚ) : Player :=
  { p with direction := fmodQ (p.direction + angle_delta) (2 * Constants.float_pi) }

/-- GameMap holds the arena grid (GameMap.__init__). -/
structure GameMap where
  arena : List (List ℤ)
deriving DecidableEq

/-- self.height = len(arena_data) -/
def GameMap.height (m : GameMap) : ℕ := m.arena.length

/-- self.width = len(arena_data[0]) if self.height > 0 else 0 -/
def GameMap.width (m : GameMap) : ℕ := (m.arena.headD []).length

/-- GameMap.is_wall: grid_x, grid_y = int(x), int(y); inside the bounds
0 <= grid_x < height and 0 <= grid_y < width the cell
arena[grid_x][grid_y] is tested against 0, out of bounds counts as a
wall.  The none branch of the option lookup models an IndexError on a
ragged arena, which the surrounding try/except turns into True. -/
def GameMap.is_wall (m : GameMap) (x y : ℚ) : Bool :=
  if 0 ≤ truncInt x ∧ truncInt x < (m.height : ℤ) ∧
      0 ≤ truncInt y ∧ truncInt y < (m.width : ℤ) then
    ((m.arena[(truncInt x).toNat]?.bind fun row => row[(truncInt y).toNat]?).map
      fun v => v != 0).getD true
  else
    true

/-- GameMap.is_valid_position: not self.is_wall(x, y) -/
def GameMap.is_valid_position (m : GameMap) (x y : ℚ) : Bool :=
  !(m.is_wall x y)

/-- The value arena[gx][gy] of the grid cell addressed by truncated
indices, 0 (open) when the indices address no cell.  This names the
"cell value" that the spec's GridMap contract speaks about. -/
def cellValue (m : GameMap) (gx gy : ℤ) : ℤ :=
  (m.arena[gx.toNat]?.bind fun row => row[gy.toNat]?).getD 0

/-- The fixed 10x10 arena from Game.setup_game_objects. -/
def arenaData : List (List ℤ) :=
  [[1, 1, 1, 1, 1, 1, 1, 1, 1, 1],
   [1, 0, 0, 0, 0, 0, 0, 0, 0, 1],
   [1, 0, 0, 0, 0, 0, 0, 0, 0, 1],
   [1, 0, 0, 1, 1, 1, 0, 0, 0, 1],
   [1, 0, 0, 0, 0, 0, 0, 0, 0, 1],
   [1, 0, 0, 0, 0, 0, 0, 1, 0, 1],
   [1, 0, 0, 1, 0, 0, 0, 0, 0, 1],
   [1, 0, 0, 0, 0, 0, 0, 0, 0, 1],
   [1, 0, 0, 0, 1, 0, 0, 0, 0, 1],
   [1, 1, 1, 1, 1, 1, 1, 1, 1, 1]]

/-- The game's GameMap instance. -/
def arenaMap : GameMap := ⟨arenaData⟩

/-- step_size = 0.05 in RaycastRenderer.cast_ray -/
def step_size : ℚ := 0.05

/-- The while loop of RaycastRenderer.cast_ray: while
distance < RENDER_DISTANCE the marching point advances by
(ray_dx * step_size, ray_dy * step_size), distance grows by step_size,
and the marched point is tested with is_wall; on a hit the accumulated
distance is returned, otherwise RENDER_DISTANCE.  The loop body runs at
most 400 times (distance is a multiple of step_size), so fuel 401 makes
the recursion total without ever cutting the loop short. -/
def castRayAux (m : GameMap) (ray_dx ray_dy : ℚ) : ℚ → ℚ → ℚ → ℕ → ℚ
  | _, _, _, 0 => Constants.RENDER_DISTANCE
  | x, y, distance, fuel + 1 =>
    if distance < Constants.RENDER_DISTANCE then
      if m.is_wall (x + ray_dx * step_size) (y + ray_dy * step_size) then
        distance + step_size
      else
        castRayAux m ray_dx ray_dy (x + ray_dx * step_size)
          (y + ray_dy * step_size) (distance + step_size) fuel
    else
      Constants.RENDER_DISTANCE

/-- RaycastRenderer.cast_ray with the direction (cos angle, sin angle)
passed as the pair (ray_dx, ray_dy); distance starts at 0.0. -/
def cast_ray (m : GameMap) (start_x start_y ray_dx ray_dy : ℚ) : ℚ :=
  castRayAux m ray_dx ray_dy start_x start_y 0 401

/-- RaycastRenderer.calculate_wall_brightness -/
def calculate_wall_brightness (distance : ℚ) : ℚ :=
  if distance ≤ 0 then 1
  else max Constants.MIN_BRIGHTNESS (1 - distance / Constants.RENDER_DISTANCE)

/-- Python float floor division a // b. -/
def floordivQ (a b : ℚ) : ℚ := ((⌊a / b⌋ : ℤ) : ℚ)

/-- wall_top = (self.height - wall_height) // 2 in
RaycastRenderer.draw_wall_slice. -/
def wall_top (screen_height wall_height : ℚ) : ℚ :=
  floordivQ (screen_height - wall_height) 2

/-- wall_bottom = (self.height + wall_height) // 2 in
RaycastRenderer.draw_wall_slice. -/
def wall_bottom (screen_height wall_height : ℚ) : ℚ :=
  floordivQ (screen_height + wall_height) 2

/-- start_angle = player.direction - FOV / 2 in
RaycastRenderer.render_scene. -/
def start_angle (direction : ℚ) : ℚ := direction - Constants.FOV / 2

/-- angle_step = FOV / NUM_RAYS in RaycastRenderer.render_scene. -/
def angle_step : ℚ := Constants.FOV / Constants.NUM_RAYS

/-- ray_angle = start_angle + i * angle_step for ray number i. -/
def ray_angle (direction : ℚ) (i : ℕ) : ℚ :=
  start_angle direction + i * angle_step

/-- The angles of the rays cast by the for-loop of
RaycastRenderer.render_scene, in order (i in range(NUM_RAYS)). -/
def ray_angles (direction : ℚ) : List ℚ :=
  (List.range Constants.NUM_RAYS).map (ray_angle direction)

/-- Game.try_move_player: compute the candidate position, move only if
the map reports it valid, otherwise leave the player untouched. -/
def try_move_player (m : GameMap) (player : Player) (dx dy : ℚ) : Player :=
  if m.is_valid_position (player.x + dx) (player.y + dy) then
    player.move dx dy
  else
    player

/-- A single Motion Controller operation: a try_move_player call with
some delta, or a Player.rotate call with some angle delta. -/
inductive MCOp where
  | move (dx dy : ℚ) : MCOp
  | rot (delta : ℚ) : MCOp

/-- Apply one Motion Controller operation to the player. -/
def applyOp (m : GameMap) (p : Player) : MCOp → Player
  | MCOp.move dx dy => try_move_player m p dx dy
  | MCOp.rot delta => p.rotate delta

/-- Apply a finite sequence of Motion Controller operations. -/
def applyOps (m : GameMap) (p : Player) (ops : List MCOp) : Player :=
  ops.foldl (applyOp m) p

/-- Apply a finite sequence of Player.rotate calls. -/
def applyRotations (p : Player) (ds : List ℚ) : Player :=
  ds.foldl Player.rotate p

/-- The six currently-pressed keys polled by Game.update_player_movement
(w, s, a, d, Left, Right). -/
structure Keys where
  w : Bool
  s : Bool
  a : Bool
  d : Bool
  left : Bool
  right : Bool
deriving DecidableEq

/-- Game.update_player_movement: for each pressed key attempt the
corresponding move or rotation and set moved = True; returns the updated
player and the moved flag.  The platform cosine and sine (floats, hence
rationals) are passed in as fcos and fsin. -/
def update_player_movement (fcos fsin : ℚ → ℚ) (m : GameMap) (keys : Keys)
    (player0 : Player) : Player × Bool :=
  let moved0 := false
  let player1 := if keys.w then
      try_move_player m player0 (fcos player0.direction * Constants.MOVEMENT_SPEED)
        (fsin player0.direction * Constants.MOVEMENT_SPEED)
    else player0
  let moved1 := if keys.w then true else moved0
  let player2 := if keys.s then
      try_move_player m player1 (-(fcos player1.direction) * Constants.MOVEMENT_SPEED)
        (-(fsin player1.direction) * Constants.MOVEMENT_SPEED)
    else player1
  let moved2 := if keys.s then true else moved1
  let player3 := if keys.a then
      try_move_player m player2 (fsin player2.direction * Constants.MOVEMENT_SPEED)
        (-(fcos player2.direction) * Constants.MOVEMENT_SPEED)
    else player2
  let moved3 := if keys.a then true else moved2
  let player4 := if keys.d then
      try_move_player m player3 (-(fsin player3.direction) * Constants.MOVEMENT_SPEED)
        (fcos player3.direction * Constants.MOVEMENT_SPEED)
    else player3
  let moved4 := if keys.d then true else moved3
  let player5 := if keys.left then player4.rotate (-Constants.ROTATION_SPEED) else player4
  let moved5 := if keys.left then true else moved4
  let player6 := if keys.right then player5.rotate Constants.ROTATION_SPEED else player5
  let moved6 := if keys.right then true else moved5
  (player6, moved6)

namespace Game

/-- Game.update: run the movement update, then re-render exactly when
moved is set or more than 1/60 s passed since the last render; returns
the new player, whether a render happened, and the new
last_update_time. -/
def update (fcos fsin : ℚ → ℚ) (m : GameMap) (keys : Keys) (player : Player)
    (current_time last_update_time : ℚ) : Player × Bool × ℚ :=
  let pm := update_player_movement fcos fsin m keys player
  if pm.2 = true ∨ current_time - last_update_time > 1 / 60 then
    (pm.1, true, current_time)
  else
    (pm.1, false, last_update_time)

end Game

/-! ## Helper lemmas -/

/-- On the concrete arena, the in-bounds wall test is the boolean form of
"the looked-up cell value is non-zero". -/
lemma arena_lookup_eval :
    ∀ i : ℕ, i < 10 → ∀ j : ℕ, j < 10 →
      ((arenaMap.arena[i]?.bind fun row => row[j]?).map fun v => v != 0).getD true =
        decide ((arenaMap.arena[i]?.bind fun row => row[j]?).getD 0 ≠ 0) := by
  decide

/-- Every open cell of the concrete arena has both indices in 1..8 (the
border rows and columns are all walls). -/
lemma arena_open_cell_bounds :
    ∀ i : ℕ, i < 10 → ∀ j : ℕ, j < 10 →
      (arenaMap.arena[i]?.bind fun row => row[j]?).getD 0 = 0 →
      1 ≤ i ∧ i ≤ 8 ∧ 1 ≤ j ∧ j ≤ 8 := by
  decide

lemma arenaMap_height_int : ((arenaMap.height : ℕ) : ℤ) = 10 := rfl

lemma arenaMap_width_int : ((arenaMap.width : ℕ) : ℤ) = 10 := rfl

lemma truncInt_ge_one {x : ℚ} (h : 1 ≤ truncInt x) : 1 ≤ x := by
  unfold truncInt at h
  by_cases hx0 : x < 0
  · rw [if_pos hx0] at h
    have hc : ⌈x⌉ ≤ 0 := Int.ceil_le.mpr (by exact_mod_cast le_of_lt hx0)
    omega
  · rw [if_neg hx0] at h
    have hfl : ((1 : ℤ) : ℚ) ≤ x := (Int.le_floor).mp h
    exact_mod_cast hfl

lemma truncInt_le_eight {x : ℚ} (h : truncInt x ≤ 8) : x < 9 := by
  unfold truncInt at h
  by_cases hx0 : x < 0
  · linarith
  · rw [if_neg hx0] at h
    have h1 : x < (⌊x⌋ : ℚ) + 1 := Int.lt_floor_add_one x
    have h2 : ((⌊x⌋ : ℤ) : ℚ) ≤ 8 := by exact_mod_cast h
    linarith

/-- Evaluate truncInt on a nonnegative concrete rational from floor
bounds. -/
lemma truncInt_eq (x : ℚ) (n : ℤ) (h3 : 0 ≤ n) (h1 : (n : ℚ) ≤ x)
    (h2 : x < (n : ℚ) + 1) : truncInt x = n := by
  have hn0 : (0 : ℚ) ≤ (n : ℚ) := by exact_mod_cast h3
  have hx0 : ¬ x < 0 := not_lt.mpr (le_trans hn0 h1)
  unfold truncInt
  rw [if_neg hx0]
  exact Int.floor_eq_iff.mpr ⟨h1, by exact_mod_cast h2⟩

/-- Characterization of is_wall on the concrete arena: true exactly when
the truncated indices leave [0, 10) x [0, 10) or the addressed cell is
non-zero. -/
lemma arena_is_wall_char (x y : ℚ) :
    arenaMap.is_wall x y = true ↔
      (truncInt x < 0 ∨ 10 ≤ truncInt x ∨ truncInt y < 0 ∨ 10 ≤ truncInt y ∨
       cellValue arenaMap (truncInt x) (truncInt y) ≠ 0) := by
  unfold GameMap.is_wall
  by_cases hg : 0 ≤ truncInt x ∧ truncInt x < ((arenaMap.height : ℕ) : ℤ) ∧
      0 ≤ truncInt y ∧ truncInt y < ((arenaMap.width : ℕ) : ℤ)
  · rw [if_pos hg]
    obtain ⟨h1, h2, h3, h4⟩ := hg
    have h2' := h2
    have h4' := h4
    rw [arenaMap_height_int] at h2'
    rw [arenaMap_width_int] at h4'
    have hx10 : (truncInt x).toNat < 10 := by omega
    have hy10 : (truncInt y).toNat < 10 := by omega
    rw [arena_lookup_eval _ hx10 _ hy10, decide_eq_true_eq]
    unfold cellValue
    constructor
    · intro hv
      exact Or.inr (Or.inr (Or.inr (Or.inr hv)))
    · intro hd
      rcases hd with hd | hd | hd | hd | hd
      · omega
      · omega
      · omega
      · omega
      · exact hd
  · rw [if_neg hg]
    rw [arenaMap_height_int, arenaMap_width_int] at hg
    simp only [not_and_or, not_le, not_lt] at hg
    constructor
    · intro _
      rcases hg with hd | hd | hd | hd
      · exact Or.inl hd
      · exact Or.inr (Or.inl hd)
      · exact Or.inr (Or.inr (Or.inl hd))
      · exact Or.inr (Or.inr (Or.inr (Or.inl hd)))
    · intro _
      rfl

/-- A position reported open by the concrete arena lies strictly inside
the border frame: both coordinates are in [1, 9). -/
lemma arena_open_coords (x y : ℚ) (h : arenaMap.is_wall x y = false) :
    1 ≤ x ∧ x < 9 ∧ 1 ≤ y ∧ y < 9 := by
  unfold GameMap.is_wall at h
  by_cases hg : 0 ≤ truncInt x ∧ truncInt x < ((arenaMap.height : ℕ) : ℤ) ∧
      0 ≤ truncInt y ∧ truncInt y < ((arenaMap.width : ℕ) : ℤ)
  · rw [if_pos hg] at h
    obtain ⟨h1, h2, h3, h4⟩ := hg
    rw [arenaMap_height_int] at h2
    rw [arenaMap_width_int] at h4
    have hx10 : (truncInt x).toNat < 10 := by omega
    have hy10 : (truncInt y).toNat < 10 := by omega
    rw [arena_lookup_eval _ hx10 _ hy10] at h
    rw [decide_eq_false_iff_not] at h
    push_neg at h
    have hb := arena_open_cell_bounds _ hx10 _ hy10 h
    obtain ⟨hb1, hb2, hb3, hb4⟩ := hb
    have hgx1 : 1 ≤ truncInt x := by omega
    have hgx8 : truncInt x ≤ 8 := by omega
    have hgy1 : 1 ≤ truncInt y := by omega
    have hgy8 : truncInt y ≤ 8 := by omega
    exact ⟨truncInt_ge_one hgx1, truncInt_le_eight hgx8,
      truncInt_ge_one hgy1, truncInt_le_eight hgy8⟩
  · rw [if_neg hg] at h
    exact absurd h (by simp)

/-- Any position with a coordinate outside [1, 9) is a wall of the
concrete arena. -/
lemma arena_wall_of_outside (x y : ℚ)
    (h : x < 1 ∨ 9 ≤ x ∨ y < 1 ∨ 9 ≤ y) : arenaMap.is_wall x y = true := by
  by_contra hf
  have hb := arena_open_coords x y (by
    cases hw : arenaMap.is_wall x y
    · rfl
    · exact absurd hw hf)
  rcases h with h | h | h | h
  · linarith [hb.1]
  · linarith [hb.2.1]
  · linarith [hb.2.2.1]
  · linarith [hb.2.2.2]

/-- The remainder a - b * floor(a / b) lies in [0, b) for positive b. -/
lemma fmodQ_mem (a b : ℚ) (hb : 0 < b) : 0 ≤ fmodQ a b ∧ fmodQ a b < b := by
  unfold fmodQ
  constructor
  · have h1 : ((⌊a / b⌋ : ℤ) : ℚ) ≤ a / b := Int.floor_le _
    have h2 : b * ((⌊a / b⌋ : ℤ) : ℚ) ≤ b * (a / b) :=
      mul_le_mul_of_nonneg_left h1 (le_of_lt hb)
    have h3 : b * (a / b) = a := by field_simp
    linarith
  · have h1 : a / b < ((⌊a / b⌋ : ℤ) : ℚ) + 1 := Int.lt_floor_add_one _
    have h2 : b * (a / b) < b * (((⌊a / b⌋ : ℤ) : ℚ) + 1) :=
      mul_lt_mul_of_pos_left h1 hb
    have h3 : b * (a / b) = a := by field_simp
    rw [h3, mul_add, mul_one] at h2
    linarith

/-- Applying one Motion Controller operation keeps an open position
open. -/
lemma applyOp_preserves_open (m : GameMap) (p : Player) (op : MCOp)
    (h : m.is_wall p.x p.y = false) :
    m.is_wall (applyOp m p op).x (applyOp m p op).y = false := by
  cases op with
  | move dx dy =>
    simp only [applyOp]
    unfold try_move_player
    cases hb : m.is_wall (p.x + dx) (p.y + dy) with
    | false =>
      have hv : m.is_valid_position (p.x + dx) (p.y + dy) = true := by
        unfold GameMap.is_valid_position
        rw [hb]
        rfl
      rw [if_pos hv]
      exact hb
    | true =>
      have hv : ¬ m.is_valid_position (p.x + dx) (p.y + dy) = true := by
        unfold GameMap.is_valid_position
        rw [hb]
        simp
      rw [if_neg hv]
      exact h
  | rot delta =>
    simp only [applyOp, Player.rotate]
    exact h

/-! ## Claim theorems -/

/-- C2: for every pair of continuous coordinates, is_wall truncates them
to integer cell indices and returns true exactly when the truncated
indices fall outside [0, height) x [0, width) or the addressed cell
value is non-zero, and is_valid_position is its boolean negation (the
model is a total function: no error is ever raised). -/
theorem claimC2 (x y : ℚ) :
    (arenaMap.is_wall x y = true ↔
      (truncInt x < 0 ∨ ((arenaMap.height : ℕ) : ℤ) ≤ truncInt x ∨
       truncInt y < 0 ∨ ((arenaMap.width : ℕ) : ℤ) ≤ truncInt y ∨
       cellValue arenaMap (truncInt x) (truncInt y) ≠ 0)) ∧
    arenaMap.is_valid_position x y = !(arenaMap.is_wall x y) := by
  refine ⟨?_, rfl⟩
  rw [arenaMap_height_int, arenaMap_width_int]
  exact arena_is_wall_char x y

/-- C3: starting from any player pose whose position the grid reports
open (is_wall false, hence in bounds), every finite sequence of Motion
Controller operations (try_move_player with arbitrary deltas and rotate
with arbitrary angle deltas) leaves the position open: it never becomes
an out-of-bounds or wall cell. -/
theorem claimC3 (m : GameMap) (p : Player) (ops : List MCOp)
    (h : m.is_wall p.x p.y = false) :
    m.is_wall (applyOps m p ops).x (applyOps m p ops).y = false := by
  induction ops generalizing p with
  | nil => exact h
  | cons op rest ih =>
    have hstep := applyOp_preserves_open m p op h
    have hunf : applyOps m p (op :: rest) = applyOps m (applyOp m p op) rest := rfl
    rw [hunf]
    exact ih _ hstep

/-- Witness for C3 at the initial pose (2, 2, pi/4) with a concrete
move-then-rotate sequence. -/
theorem claimC3_witness :
    arenaMap.is_wall (2 : ℚ) 2 = false ∧
    arenaMap.is_wall
      (applyOps arenaMap ⟨2, 2, Constants.float_pi / 4⟩
        [MCOp.move 0.15 0, MCOp.rot 0.08]).x
      (applyOps arenaMap ⟨2, 2, Constants.float_pi / 4⟩
        [MCOp.move 0.15 0, MCOp.rot 0.08]).y = false :=
  ⟨by decide, claimC3 arenaMap ⟨2, 2, Constants.float_pi / 4⟩
    [MCOp.move 0.15 0, MCOp.rot 0.08] (by decide)⟩

/-- C4: whenever the candidate position p + (dx, dy) lands on a wall
cell (or out of bounds, both reported by is_wall), try_move_player
returns the player exactly unchanged; the model is total, so no error
is reported. -/
theorem claimC4 (m : GameMap) (p : Player) (dx dy : ℚ)
    (h : m.is_wall (p.x + dx) (p.y + dy) = true) :
    try_move_player m p dx dy = p := by
  unfold try_move_player
  have hv : ¬ m.is_valid_position (p.x + dx) (p.y + dy) = true := by
    unfold GameMap.is_valid_position
    rw [h]
    simp
  rw [if_neg hv]

/-- Witness for C4: the spec scenario — the player at (1.5, 1.5)
attempting a move to (0.9, 1.5), i.e. delta (-0.6, 0), stays at exactly
(1.5, 1.5). -/
theorem claimC4_witness :
    arenaMap.is_wall ((3 : ℚ) / 2 + -(3 / 5)) ((3 : ℚ) / 2 + 0) = true ∧
    try_move_player arenaMap ⟨3 / 2, 3 / 2, Constants.float_pi / 4⟩ (-(3 / 5)) 0 =
      ⟨3 / 2, 3 / 2, Constants.float_pi / 4⟩ := by
  have hx : truncInt ((3 : ℚ) / 2 + -(3 / 5)) = 0 :=
    truncInt_eq _ 0 (by norm_num) (by norm_num) (by norm_num)
  have hy : truncInt ((3 : ℚ) / 2 + 0) = 1 :=
    truncInt_eq _ 1 (by norm_num) (by norm_num) (by norm_num)
  have hw : arenaMap.is_wall ((3 : ℚ) / 2 + -(3 / 5)) ((3 : ℚ) / 2 + 0) = true := by
    rw [arena_is_wall_char, hx, hy]
    exact Or.inr (Or.inr (Or.inr (Or.inr (by decide))))
  exact ⟨hw, claimC4 arenaMap ⟨3 / 2, 3 / 2, Constants.float_pi / 4⟩ (-(3 / 5)) 0 hw⟩

/-- C5: calculate_wall_brightness is 1 for distances at most 0 and
max(MIN_BRIGHTNESS, 1 - distance / RENDER_DISTANCE) otherwise; it is
monotonically non-increasing in the distance and always lies in
[MIN_BRIGHTNESS, 1]. -/
theorem claimC5 (d e : ℚ) (hde : d ≤ e) :
    calculate_wall_brightness e ≤ calculate_wall_brightness d ∧
    Constants.MIN_BRIGHTNESS ≤ calculate_wall_brightness d ∧
    calculate_wall_brightness d ≤ 1 ∧
    (d ≤ 0 → calculate_wall_brightness d = 1) ∧
    (0 < d → calculate_wall_brightness d =
      max Constants.MIN_BRIGHTNESS (1 - d / Constants.RENDER_DISTANCE)) := by
  have h1 : ∀ t : ℚ, t ≤ 0 → calculate_wall_brightness t = 1 := by
    intro t ht
    unfold calculate_wall_brightness
    rw [if_pos ht]
  have h2 : ∀ t : ℚ, 0 < t → calculate_wall_brightness t =
      max Constants.MIN_BRIGHTNESS (1 - t / Constants.RENDER_DISTANCE) := by
    intro t ht
    unfold calculate_wall_brightness
    rw [if_neg (not_le.mpr ht)]
  have hrange : ∀ t : ℚ, Constants.MIN_BRIGHTNESS ≤ calculate_wall_brightness t ∧
      calculate_wall_brightness t ≤ 1 := by
    intro t
    by_cases ht : t ≤ 0
    · rw [h1 t ht]
      norm_num [Constants.MIN_BRIGHTNESS]
    · push_neg at ht
      rw [h2 t ht]
      constructor
      · exact le_max_left _ _
      · apply max_le
        · norm_num [Constants.MIN_BRIGHTNESS]
        · have hpos : 0 < t / Constants.RENDER_DISTANCE := by
            unfold Constants.RENDER_DISTANCE
            positivity
          linarith
  have hmono : calculate_wall_brightness e ≤ calculate_wall_brightness d := by
    by_cases hd : d ≤ 0
    · rw [h1 d hd]
      exact (hrange e).2
    · push_neg at hd
      have he : 0 < e := lt_of_lt_of_le hd hde
      rw [h2 d hd, h2 e he]
      apply max_le_max (le_refl _)
      have hq : d / Constants.RENDER_DISTANCE ≤ e / Constants.RENDER_DISTANCE := by
        unfold Constants.RENDER_DISTANCE
        linarith
      linarith
  exact ⟨hmono, (hrange d).1, (hrange d).2, h1 d, h2 d⟩

/-- Witness for C5 at distances 1 and 2. -/
theorem claimC5_witness :
    ((1 : ℚ) ≤ 2) ∧
    (calculate_wall_brightness 2 ≤ calculate_wall_brightness 1 ∧
     Constants.MIN_BRIGHTNESS ≤ calculate_wall_brightness 1 ∧
     calculate_wall_brightness 1 ≤ 1 ∧
     ((1 : ℚ) ≤ 0 → calculate_wall_brightness 1 = 1) ∧
     ((0 : ℚ) < 1 → calculate_wall_brightness 1 =
       max Constants.MIN_BRIGHTNESS (1 - 1 / Constants.RENDER_DISTANCE))) :=
  ⟨by norm_num, claimC5 1 2 (by norm_num)⟩

/-- C8 counterexample: draw_wall_slice uses floor division, so for a
wall slice of height 1 on a screen of height 800 the computed top edge
is 399, not the exact (800 - 1) / 2 = 399.5 the claim states (and the
bottom edge is 400, not 400.5). -/
theorem claimC8_counterexample :
    wall_top 800 1 ≠ (800 - 1) / 2 ∧ wall_bottom 800 1 ≠ (800 + 1) / 2 := by
  have ht : ⌊((800 : ℚ) - 1) / 2⌋ = 399 := by
    rw [Int.floor_eq_iff]
    norm_num
  have hb : ⌊((800 : ℚ) + 1) / 2⌋ = 400 := by
    rw [Int.floor_eq_iff]
    norm_num
  constructor
  · unfold wall_top floordivQ
    rw [ht]
    norm_num
  · unfold wall_bottom floordivQ
    rw [hb]
    norm_num

/-- C8 as amended: the top and bottom edges are the floor divisions
(H - h) // 2 and (H + h) // 2, each within 1 below the exact value
(H -+ h) / 2 that the claim names. -/
theorem claimC8_amended (H h : ℚ) :
    wall_top H h = ((⌊(H - h) / 2⌋ : ℤ) : ℚ) ∧
    wall_bottom H h = ((⌊(H + h) / 2⌋ : ℤ) : ℚ) ∧
    (H - h) / 2 - 1 < wall_top H h ∧ wall_top H h ≤ (H - h) / 2 ∧
    (H + h) / 2 - 1 < wall_bottom H h ∧ wall_bottom H h ≤ (H + h) / 2 := by
  unfold wall_top wall_bottom floordivQ
  refine ⟨rfl, rfl, ?_, ?_, ?_, ?_⟩
  · exact Int.sub_one_lt_floor _
  · exact Int.floor_le _
  · exact Int.sub_one_lt_floor _
  · exact Int.floor_le _

/-- C9: rotation is closed under repeated application — for every
initial pose and every finite sequence of rotate calls ending in one
more rotation, the heading after that rotation lies in
[0, 2 * pi) (with pi the program's math.pi), because rotate normalizes
modulo 2 * pi. -/
theorem claimC9 (p : Player) (ds : List ℚ) (delta : ℚ) :
    0 ≤ (applyRotations p (ds ++ [delta])).direction ∧
    (applyRotations p (ds ++ [delta])).direction < 2 * Constants.float_pi := by
  have hfold : applyRotations p (ds ++ [delta]) =
      (applyRotations p ds).rotate delta := by
    unfold applyRotations
    rw [List.foldl_append]
    rfl
  rw [hfold]
  unfold Player.rotate
  have h2pi : (0 : ℚ) < 2 * Constants.float_pi := by
    norm_num [Constants.float_pi]
  exact fmodQ_mem _ _ h2pi

/-- C6: render_scene casts exactly NUM_RAYS rays; ray i has angle
(direction - FOV / 2) + i * (FOV / NUM_RAYS), so the first angle is
direction - FOV / 2, the step FOV / NUM_RAYS equals pi / 2400 (with pi
the program's math.pi, NUM_RAYS = 800 and FOV = pi / 3), and the last
angle is direction + FOV / 2 - step, strictly below direction + FOV / 2
(half-open interval). -/
theorem claimC6 (direction : ℚ) :
    (ray_angles direction).length = Constants.NUM_RAYS ∧
    ray_angle direction 0 = direction - Constants.FOV / 2 ∧
    angle_step = Constants.float_pi / 2400 ∧
    ray_angle direction (Constants.NUM_RAYS - 1) =
      direction + Constants.FOV / 2 - angle_step ∧
    ray_angle direction (Constants.NUM_RAYS - 1) <
      direction + Constants.FOV / 2 ∧
    ∀ i : ℕ, i < Constants.NUM_RAYS →
      (ray_angles direction).getD i 0 =
        (direction - Constants.FOV / 2) + (i : ℚ) * angle_step := by
  have hstep : angle_step = Constants.float_pi / 2400 := by
    unfold angle_step Constants.FOV Constants.NUM_RAYS
    push_cast
    ring
  have hpos : 0 < angle_step := by
    rw [hstep]
    norm_num [Constants.float_pi]
  have hlast : ray_angle direction (Constants.NUM_RAYS - 1) =
      direction + Constants.FOV / 2 - angle_step := by
    unfold ray_angle start_angle angle_step Constants.NUM_RAYS Constants.FOV
    norm_num
    ring
  refine ⟨?_, ?_, hstep, hlast, ?_, ?_⟩
  · unfold ray_angles
    rw [List.length_map, List.length_range]
  · unfold ray_angle start_angle
    norm_num
  · rw [hlast]
    linarith
  · intro i hi
    unfold ray_angles
    have hget : (List.range Constants.NUM_RAYS)[i]? = some i :=
      List.getElem?_range hi
    rw [List.getD_eq_getElem?_getD, List.getElem?_map, hget]
    unfold ray_angle start_angle
    simp

/-- Witness for C6: ray number 3 at heading 0. -/
theorem claimC6_witness :
    3 < Constants.NUM_RAYS ∧
    (ray_angles 0).getD 3 0 =
      ((0 : ℚ) - Constants.FOV / 2) + ((3 : ℕ) : ℚ) * angle_step :=
  ⟨by norm_num [Constants.NUM_RAYS],
   (claimC6 0).2.2.2.2.2 3 (by norm_num [Constants.NUM_RAYS])⟩

/-- The marching loop never returns less than one step_size once the
accumulated distance is nonnegative. -/
lemma castRayAux_ge (m : GameMap) (rdx rdy : ℚ) :
    ∀ (fuel : ℕ) (x y d : ℚ), 0 ≤ d →
      step_size ≤ castRayAux m rdx rdy x y d fuel := by
  intro fuel
  induction fuel with
  | zero =>
    intro x y d _
    simp only [castRayAux]
    norm_num [Constants.RENDER_DISTANCE, step_size]
  | succ f ih =>
    intro x y d hd
    simp only [castRayAux]
    by_cases hlt : d < Constants.RENDER_DISTANCE
    · rw [if_pos hlt]
      by_cases hw : m.is_wall (x + rdx * step_size) (y + rdy * step_size) = true
      · rw [if_pos hw]
        norm_num [step_size]
        linarith
      · rw [if_neg hw]
        exact ih _ _ _ (by norm_num [step_size]; linarith)
    · rw [if_neg hlt]
      norm_num [Constants.RENDER_DISTANCE, step_size]

/-- With enough fuel left, the marching loop started at a distance that
is a multiple of step_size never returns more than RENDER_DISTANCE. -/
lemma castRayAux_le (m : GameMap) (rdx rdy : ℚ) :
    ∀ (fuel n : ℕ), 401 ≤ fuel + n → n ≤ 400 → ∀ x y : ℚ,
      castRayAux m rdx rdy x y ((n : ℚ) * step_size) fuel ≤
        Constants.RENDER_DISTANCE := by
  intro fuel
  induction fuel with
  | zero =>
    intro n h1 h2
    omega
  | succ f ih =>
    intro n h1 h2 x y
    simp only [castRayAux]
    by_cases hlt : (n : ℚ) * step_size < Constants.RENDER_DISTANCE
    · rw [if_pos hlt]
      have hn399 : n ≤ 399 := by
        by_contra hc
        have h400 : n = 400 := by omega
        subst h400
        revert hlt
        norm_num [step_size, Constants.RENDER_DISTANCE]
      have hnq : (n : ℚ) ≤ 399 := by exact_mod_cast hn399
      by_cases hw : m.is_wall (x + rdx * step_size) (y + rdy * step_size) = true
      · rw [if_pos hw]
        norm_num [step_size, Constants.RENDER_DISTANCE]
        linarith
      · rw [if_neg hw]
        have hd : (n : ℚ) * step_size + step_size = ((n + 1 : ℕ) : ℚ) * step_size := by
          push_cast
          ring
        rw [hd]
        exact ih (n + 1) (by omega) (by omega) _ _
    · rw [if_neg hlt]

/-- If some not-yet-reached sample position within the 400-step range is
a wall, the loop returns at most that sample's distance. -/
lemma castRayAux_hit (m : GameMap) (rdx rdy sx sy : ℚ) (j : ℕ) (hj400 : j ≤ 400)
    (hwall : m.is_wall (sx + (j : ℚ) * (rdx * step_size))
      (sy + (j : ℚ) * (rdy * step_size)) = true) :
    ∀ (fuel n : ℕ), 401 ≤ fuel + n → n < j →
      castRayAux m rdx rdy (sx + (n : ℚ) * (rdx * step_size))
          (sy + (n : ℚ) * (rdy * step_size)) ((n : ℚ) * step_size) fuel ≤
        (j : ℚ) * step_size := by
  intro fuel
  induction fuel with
  | zero =>
    intro n h1 h2
    omega
  | succ f ih =>
    intro n h1 h2
    have hn399 : n ≤ 399 := by omega
    have hnq : (n : ℚ) ≤ 399 := by exact_mod_cast hn399
    have hlt : (n : ℚ) * step_size < Constants.RENDER_DISTANCE := by
      norm_num [step_size, Constants.RENDER_DISTANCE]
      linarith
    simp only [castRayAux]
    rw [if_pos hlt]
    have hx : sx + (n : ℚ) * (rdx * step_size) + rdx * step_size =
        sx + ((n + 1 : ℕ) : ℚ) * (rdx * step_size) := by
      push_cast
      ring
    have hy : sy + (n : ℚ) * (rdy * step_size) + rdy * step_size =
        sy + ((n + 1 : ℕ) : ℚ) * (rdy * step_size) := by
      push_cast
      ring
    have hd : (n : ℚ) * step_size + step_size = ((n + 1 : ℕ) : ℚ) * step_size := by
      push_cast
      ring
    rw [hx, hy, hd]
    have hjq : ((n + 1 : ℕ) : ℚ) ≤ (j : ℚ) := by exact_mod_cast h2
    by_cases hw : m.is_wall (sx + ((n + 1 : ℕ) : ℚ) * (rdx * step_size))
        (sy + ((n + 1 : ℕ) : ℚ) * (rdy * step_size)) = true
    · rw [if_pos hw]
      have hs : (0 : ℚ) ≤ step_size := by norm_num [step_size]
      exact mul_le_mul_of_nonneg_right hjq hs
    · rw [if_neg hw]
      have hne : n + 1 ≠ j := by
        intro he
        apply hw
        rw [he]
        exact hwall
      exact ih (n + 1) (by omega) (by omega)

/-- If the first wall among the sample positions is the one at step j,
the loop returns exactly j * step_size. -/
lemma castRayAux_first_hit (m : GameMap) (rdx rdy sx sy : ℚ) (j : ℕ)
    (hj400 : j ≤ 400)
    (hwall : m.is_wall (sx + (j : ℚ) * (rdx * step_size))
      (sy + (j : ℚ) * (rdy * step_size)) = true)
    (hopen : ∀ k : ℕ, 1 ≤ k → k < j →
      m.is_wall (sx + (k : ℚ) * (rdx * step_size))
        (sy + (k : ℚ) * (rdy * step_size)) = false) :
    ∀ (fuel n : ℕ), 401 ≤ fuel + n → n < j →
      castRayAux m rdx rdy (sx + (n : ℚ) * (rdx * step_size))
          (sy + (n : ℚ) * (rdy * step_size)) ((n : ℚ) * step_size) fuel =
        (j : ℚ) * step_size := by
  intro fuel
  induction fuel with
  | zero =>
    intro n h1 h2
    omega
  | succ f ih =>
    intro n h1 h2
    have hn399 : n ≤ 399 := by omega
    have hnq : (n : ℚ) ≤ 399 := by exact_mod_cast hn399
    have hlt : (n : ℚ) * step_size < Constants.RENDER_DISTANCE := by
      norm_num [step_size, Constants.RENDER_DISTANCE]
      linarith
    simp only [castRayAux]
    rw [if_pos hlt]
    have hx : sx + (n : ℚ) * (rdx * step_size) + rdx * step_size =
        sx + ((n + 1 : ℕ) : ℚ) * (rdx * step_size) := by
      push_cast
      ring
    have hy : sy + (n : ℚ) * (rdy * step_size) + rdy * step_size =
        sy + ((n + 1 : ℕ) : ℚ) * (rdy * step_size) := by
      push_cast
      ring
    have hd : (n : ℚ) * step_size + step_size = ((n + 1 : ℕ) : ℚ) * step_size := by
      push_cast
      ring
    rw [hx, hy, hd]
    by_cases hej : n + 1 = j
    · rw [if_pos (by rw [hej]; exact hwall)]
      rw [hej]
    · have hlt2 : n + 1 < j := by omega
      rw [if_neg (by rw [hopen (n + 1) (by omega) hlt2]; simp)]
      exact ih (n + 1) (by omega) hlt2

/-- A position whose truncated indices are in bounds and whose cell is 0
is open on the concrete arena. -/
lemma arena_open_char (x y : ℚ) (hx0 : 0 ≤ truncInt x) (hx10 : truncInt x < 10)
    (hy0 : 0 ≤ truncInt y) (hy10 : truncInt y < 10)
    (hcell : cellValue arenaMap (truncInt x) (truncInt y) = 0) :
    arenaMap.is_wall x y = false := by
  cases hb : arenaMap.is_wall x y
  · rfl
  · exfalso
    have h := (arena_is_wall_char x y).mp hb
    rcases h with h | h | h | h | h
    · omega
    · omega
    · omega
    · omega
    · exact h hcell

/-- cast_ray returns exactly j * step_size when the step-j sample is the
first wall among the marched samples. -/
lemma cast_ray_eq_of_first_hit (m : GameMap) (sx sy rdx rdy : ℚ) (j : ℕ)
    (hj1 : 1 ≤ j) (hj400 : j ≤ 400)
    (hwall : m.is_wall (sx + (j : ℚ) * (rdx * step_size))
      (sy + (j : ℚ) * (rdy * step_size)) = true)
    (hopen : ∀ k : ℕ, 1 ≤ k → k < j →
      m.is_wall (sx + (k : ℚ) * (rdx * step_size))
        (sy + (k : ℚ) * (rdy * step_size)) = false) :
    cast_ray m sx sy rdx rdy = (j : ℚ) * step_size := by
  have h := castRayAux_first_hit m rdx rdy sx sy j hj400 hwall hopen 401 0
    (by omega) (by omega)
  have e1 : sx + ((0 : ℕ) : ℚ) * (rdx * step_size) = sx := by
    push_cast
    ring
  have e2 : sy + ((0 : ℕ) : ℚ) * (rdy * step_size) = sy := by
    push_cast
    ring
  have e3 : ((0 : ℕ) : ℚ) * step_size = (0 : ℚ) := by
    push_cast
    ring
  rw [e1, e2, e3] at h
  exact h

/-- From an open position of the arena, the step-300 sample of any
unit-direction ray is out past the border frame, hence a wall: the open
region is contained in [1, 9) x [1, 9) and the sample is 15 units away
along a unit vector, so one coordinate moves by more than 8. -/
lemma sample300_wall (sx sy rdx rdy : ℚ) (hdir : rdx ^ 2 + rdy ^ 2 = 1)
    (hopen : arenaMap.is_wall sx sy = false) :
    arenaMap.is_wall (sx + ((300 : ℕ) : ℚ) * (rdx * step_size))
      (sy + ((300 : ℕ) : ℚ) * (rdy * step_size)) = true := by
  obtain ⟨hx1, hx9, hy1, hy9⟩ := arena_open_coords sx sy hopen
  have hss : (step_size : ℚ) = 1 / 20 := by norm_num [step_size]
  have hs1 : ((300 : ℕ) : ℚ) * (rdx * step_size) = 15 * rdx := by
    rw [hss]
    push_cast
    ring
  have hs2 : ((300 : ℕ) : ℚ) * (rdy * step_size) = 15 * rdy := by
    rw [hss]
    push_cast
    ring
  rw [hs1, hs2]
  have hhalf : (1 : ℚ) / 2 ≤ rdx ^ 2 ∨ (1 : ℚ) / 2 ≤ rdy ^ 2 := by
    by_contra hc
    push_neg at hc
    obtain ⟨ha, hb⟩ := hc
    linarith
  apply arena_wall_of_outside
  rcases hhalf with h | h
  · rcases le_or_lt 0 rdx with hp | hn
    · right
      left
      have h8 : (8 : ℚ) < 15 * rdx := by nlinarith
      linarith
    · left
      have h8 : 15 * rdx < -8 := by nlinarith
      linarith
  · rcases le_or_lt 0 rdy with hp | hn
    · right
      right
      right
      have h8 : (8 : ℚ) < 15 * rdy := by nlinarith
      linarith
    · right
      right
      left
      have h8 : 15 * rdy < -8 := by nlinarith
      linarith

/-- C1: for every unit direction (cos, sin of an angle) and every origin
in open space, cast_ray returns a distance in [0, RENDER_DISTANCE], and
it returns exactly RENDER_DISTANCE if and only if no marched sample
within that range (steps 1..400, distances up to RENDER_DISTANCE) lands
in a wall cell.  On this arena both sides of the equivalence are in fact
impossible: every ray from open space hits a wall within 15 units. -/
theorem claimC1 (sx sy rdx rdy : ℚ) (hdir : rdx ^ 2 + rdy ^ 2 = 1)
    (hopen : arenaMap.is_wall sx sy = false) :
    0 ≤ cast_ray arenaMap sx sy rdx rdy ∧
    cast_ray arenaMap sx sy rdx rdy ≤ Constants.RENDER_DISTANCE ∧
    (cast_ray arenaMap sx sy rdx rdy = Constants.RENDER_DISTANCE ↔
      ∀ k : ℕ, 1 ≤ k → k ≤ 400 →
        arenaMap.is_wall (sx + (k : ℚ) * (rdx * step_size))
          (sy + (k : ℚ) * (rdy * step_size)) = false) := by
  have hge : step_size ≤ cast_ray arenaMap sx sy rdx rdy := by
    unfold cast_ray
    exact castRayAux_ge arenaMap rdx rdy 401 sx sy 0 le_rfl
  have hle : cast_ray arenaMap sx sy rdx rdy ≤ Constants.RENDER_DISTANCE := by
    unfold cast_ray
    have h := castRayAux_le arenaMap rdx rdy 401 0 (by omega) (by omega) sx sy
    have e : ((0 : ℕ) : ℚ) * step_size = (0 : ℚ) := by
      push_cast
      ring
    rw [e] at h
    exact h
  have hw300 := sample300_wall sx sy rdx rdy hdir hopen
  have h15 : cast_ray arenaMap sx sy rdx rdy ≤ 15 := by
    have h := castRayAux_hit arenaMap rdx rdy sx sy 300 (by omega) hw300 401 0
      (by omega) (by omega)
    have e1 : sx + ((0 : ℕ) : ℚ) * (rdx * step_size) = sx := by
      push_cast
      ring
    have e2 : sy + ((0 : ℕ) : ℚ) * (rdy * step_size) = sy := by
      push_cast
      ring
    have e3 : ((0 : ℕ) : ℚ) * step_size = (0 : ℚ) := by
      push_cast
      ring
    rw [e1, e2, e3] at h
    have e4 : ((300 : ℕ) : ℚ) * step_size = 15 := by
      norm_num [step_size]
    rw [e4] at h
    unfold cast_ray
    exact h
  refine ⟨?_, hle, ?_⟩
  · have hs : (0 : ℚ) ≤ step_size := by norm_num [step_size]
    linarith
  · constructor
    · intro h20
      exfalso
      rw [h20] at h15
      norm_num [Constants.RENDER_DISTANCE] at h15
    · intro hall
      exfalso
      have hk := hall 300 (by omega) (by omega)
      rw [hw300] at hk
      exact Bool.noConfusion hk

/-- Witness for C1: origin (1.5, 1.5) and the unit direction
(3/5, 4/5). -/
theorem claimC1_witness :
    ((3 : ℚ) / 5) ^ 2 + ((4 : ℚ) / 5) ^ 2 = 1 ∧
    arenaMap.is_wall ((3 : ℚ) / 2) ((3 : ℚ) / 2) = false ∧
    (0 ≤ cast_ray arenaMap (3 / 2) (3 / 2) (3 / 5) (4 / 5) ∧
     cast_ray arenaMap (3 / 2) (3 / 2) (3 / 5) (4 / 5) ≤ Constants.RENDER_DISTANCE ∧
     (cast_ray arenaMap (3 / 2) (3 / 2) (3 / 5) (4 / 5) = Constants.RENDER_DISTANCE ↔
       ∀ k : ℕ, 1 ≤ k → k ≤ 400 →
         arenaMap.is_wall ((3 : ℚ) / 2 + (k : ℚ) * (3 / 5 * step_size))
           ((3 : ℚ) / 2 + (k : ℚ) * (4 / 5 * step_size)) = false)) := by
  have htx : truncInt ((3 : ℚ) / 2) = 1 :=
    truncInt_eq _ 1 (by norm_num) (by norm_num) (by norm_num)
  have hopen : arenaMap.is_wall ((3 : ℚ) / 2) ((3 : ℚ) / 2) = false := by
    apply arena_open_char
    · rw [htx]
      norm_num
    · rw [htx]
      norm_num
    · rw [htx]
      norm_num
    · rw [htx]
      norm_num
    · rw [htx]
      decide
  exact ⟨by norm_num, hopen,
    claimC1 (3 / 2) (3 / 2) (3 / 5) (4 / 5) (by norm_num) hopen⟩

/-- C10 counterexample: the origin (5.5, 7.99) lies inside the wall cell
(5, 7), yet the ray along direction (0, 1) (angle pi/2) immediately
leaves that cell: its first sample (distance 0.05) is in the open cell
(5, 8), and the march only hits a wall (column 9) at distance 1.05, so
cast_ray does not return STEP_SIZE. -/
theorem claimC10_counterexample :
    arenaMap.is_wall ((11 : ℚ) / 2) ((799 : ℚ) / 100) = true ∧
    cast_ray arenaMap (11 / 2) (799 / 100) 0 1 ≠ step_size := by
  have hss : (step_size : ℚ) = 1 / 20 := by norm_num [step_size]
  have htx : truncInt ((11 : ℚ) / 2) = 5 :=
    truncInt_eq _ 5 (by norm_num) (by norm_num) (by norm_num)
  constructor
  · rw [arena_is_wall_char, htx,
      truncInt_eq ((799 : ℚ) / 100) 7 (by norm_num) (by norm_num) (by norm_num)]
    exact Or.inr (Or.inr (Or.inr (Or.inr (by decide))))
  · have hwall : arenaMap.is_wall
        ((11 : ℚ) / 2 + ((21 : ℕ) : ℚ) * (0 * step_size))
        ((799 : ℚ) / 100 + ((21 : ℕ) : ℚ) * (1 * step_size)) = true := by
      have ex : (11 : ℚ) / 2 + ((21 : ℕ) : ℚ) * (0 * step_size) = 11 / 2 := by
        push_cast
        ring
      have ey : (799 : ℚ) / 100 + ((21 : ℕ) : ℚ) * (1 * step_size) = 226 / 25 := by
        rw [hss]
        push_cast
        ring
      rw [ex, ey, arena_is_wall_char, htx,
        truncInt_eq ((226 : ℚ) / 25) 9 (by norm_num) (by norm_num) (by norm_num)]
      exact Or.inr (Or.inr (Or.inr (Or.inr (by decide))))
    have hopen : ∀ k : ℕ, 1 ≤ k → k < 21 →
        arenaMap.is_wall ((11 : ℚ) / 2 + (k : ℚ) * (0 * step_size))
          ((799 : ℚ) / 100 + (k : ℚ) * (1 * step_size)) = false := by
      intro k h1 h2
      have hk1 : (1 : ℚ) ≤ (k : ℚ) := by exact_mod_cast h1
      have hk20 : (k : ℚ) ≤ 20 := by
        have : k ≤ 20 := by omega
        exact_mod_cast this
      have ex : (11 : ℚ) / 2 + (k : ℚ) * (0 * step_size) = 11 / 2 := by
        ring
      have ey : (799 : ℚ) / 100 + (k : ℚ) * (1 * step_size) =
          799 / 100 + (k : ℚ) * (1 / 20) := by
        rw [hss]
        ring
      rw [ex, ey]
      have hty : truncInt ((799 : ℚ) / 100 + (k : ℚ) * (1 / 20)) = 8 := by
        apply truncInt_eq _ 8 (by norm_num)
        · push_cast
          linarith
        · push_cast
          linarith
      apply arena_open_char
      · rw [htx]
        norm_num
      · rw [htx]
        norm_num
      · rw [hty]
        norm_num
      · rw [hty]
        norm_num
      · rw [htx, hty]
        decide
    have heq := cast_ray_eq_of_first_hit arenaMap (11 / 2) (799 / 100) 0 1 21
      (by omega) (by omega) hwall hopen
    rw [heq, hss]
    norm_num

/-- One unfolding of the marching loop, for a successor fuel value. -/
lemma castRayAux_succ (m : GameMap) (rdx rdy x y d : ℚ) (fuel : ℕ) :
    castRayAux m rdx rdy x y d (fuel + 1) =
      if d < Constants.RENDER_DISTANCE then
        if m.is_wall (x + rdx * step_size) (y + rdy * step_size) then
          d + step_size
        else
          castRayAux m rdx rdy (x + rdx * step_size) (y + rdy * step_size)
            (d + step_size) fuel
      else
        Constants.RENDER_DISTANCE := rfl

/-- C10 as amended: cast_ray always advances the marching position by
one step before its first occupancy test, so the returned distance is at
least STEP_SIZE (in particular never 0), and whenever the first sample
(one step from the origin) is itself a wall — e.g. an origin well inside
a wall cell — the returned distance is exactly STEP_SIZE.  A ray cast
from a point inside a wall cell but within one step of an open cell can
return more than STEP_SIZE, as the counterexample shows. -/
theorem claimC10_amended (m : GameMap) (sx sy rdx rdy : ℚ) :
    step_size ≤ cast_ray m sx sy rdx rdy ∧
    (m.is_wall (sx + rdx * step_size) (sy + rdy * step_size) = true →
      cast_ray m sx sy rdx rdy = step_size) := by
  constructor
  · unfold cast_ray
    exact castRayAux_ge m rdx rdy 401 sx sy 0 le_rfl
  · intro hw
    unfold cast_ray
    have h401 : (401 : ℕ) = 400 + 1 := rfl
    rw [h401, castRayAux_succ]
    rw [if_pos (by norm_num [Constants.RENDER_DISTANCE] :
      (0 : ℚ) < Constants.RENDER_DISTANCE)]
    rw [if_pos hw]
    ring

/-- Witness for C10's amended claim: origin (0.5, 0.5) deep inside the
border wall cell (0, 0), direction (1, 0); the first sample is still in
a wall, so the ray returns exactly step_size. -/
theorem claimC10_amended_witness :
    arenaMap.is_wall ((1 : ℚ) / 2 + 1 * step_size) ((1 : ℚ) / 2 + 0 * step_size) = true ∧
    step_size ≤ cast_ray arenaMap (1 / 2) (1 / 2) 1 0 ∧
    cast_ray arenaMap (1 / 2) (1 / 2) 1 0 = step_size := by
  have hw : arenaMap.is_wall ((1 : ℚ) / 2 + 1 * step_size)
      ((1 : ℚ) / 2 + 0 * step_size) = true := by
    have ex : (1 : ℚ) / 2 + 1 * step_size = 11 / 20 := by
      norm_num [step_size]
    have ey : (1 : ℚ) / 2 + 0 * step_size = 1 / 2 := by
      ring
    rw [ex, ey, arena_is_wall_char,
      truncInt_eq ((11 : ℚ) / 20) 0 (by norm_num) (by norm_num) (by norm_num),
      truncInt_eq ((1 : ℚ) / 2) 0 (by norm_num) (by norm_num) (by norm_num)]
    exact Or.inr (Or.inr (Or.inr (Or.inr (by decide))))
  exact ⟨hw, (claimC10_amended arenaMap (1 / 2) (1 / 2) 1 0).1,
    (claimC10_amended arenaMap (1 / 2) (1 / 2) 1 0).2 hw⟩

/-- fmodQ fixes values already in [0, b). -/
lemma fmodQ_of_mem (a b : ℚ) (h0 : 0 ≤ a) (hb : a < b) : fmodQ a b = a := by
  have hbpos : 0 < b := lt_of_le_of_lt h0 hb
  have hfl : ⌊a / b⌋ = 0 := by
    rw [Int.floor_eq_zero_iff]
    constructor
    · positivity
    · rw [div_lt_one hbpos]
      exact hb
  unfold fmodQ
  rw [hfl]
  ring

/-- The moved flag computed by update_player_movement is exactly "some
relevant key is pressed", independently of whether any attempted move
was committed. -/
lemma update_player_movement_snd (fcos fsin : ℚ → ℚ) (m : GameMap)
    (keys : Keys) (p : Player) :
    (update_player_movement fcos fsin m keys p).2 =
      (keys.w || keys.s || keys.a || keys.d || keys.left || keys.right) := by
  rcases keys with ⟨w, s, a, d, l, r⟩
  cases w <;> cases s <;> cases a <;> cases d <;> cases l <;> cases r <;> rfl

/-- C7 counterexample: at the initial pose (2, 2, pi/4), a tick with
both rotation keys held rotates by -0.08 then +0.08, leaving position
and heading exactly unchanged, yet moved is set and the tick re-renders
even though the inter-frame interval (with current time = last update
time) has not elapsed — so "skip exactly when the pose is unchanged and
the interval has not elapsed" fails, and moved is true without any
actual pose change.  (The cosine and sine arguments are irrelevant: no
translation key is pressed.) -/
theorem claimC7_counterexample :
    (Game.update (fun _ => 0) (fun _ => 0) arenaMap
        ⟨false, false, false, false, true, true⟩
        ⟨2, 2, Constants.float_pi / 4⟩ 0 0).2.1 = true ∧
    (Game.update (fun _ => 0) (fun _ => 0) arenaMap
        ⟨false, false, false, false, true, true⟩
        ⟨2, 2, Constants.float_pi / 4⟩ 0 0).1 =
      ⟨2, 2, Constants.float_pi / 4⟩ ∧
    ((0 : ℚ) - 0 ≤ 1 / 60) := by
  have hd1 : fmodQ (Constants.float_pi / 4 + -Constants.ROTATION_SPEED)
      (2 * Constants.float_pi) = Constants.float_pi / 4 + -Constants.ROTATION_SPEED := by
    apply fmodQ_of_mem
    · norm_num [Constants.float_pi, Constants.ROTATION_SPEED]
    · norm_num [Constants.float_pi, Constants.ROTATION_SPEED]
  have hd2 : fmodQ (Constants.float_pi / 4 + -Constants.ROTATION_SPEED +
      Constants.ROTATION_SPEED) (2 * Constants.float_pi) = Constants.float_pi / 4 := by
    have e : Constants.float_pi / 4 + -Constants.ROTATION_SPEED +
        Constants.ROTATION_SPEED = Constants.float_pi / 4 := by
      ring
    rw [e]
    apply fmodQ_of_mem
    · norm_num [Constants.float_pi]
    · norm_num [Constants.float_pi]
  refine ⟨rfl, ?_, by norm_num⟩
  show (⟨2, 2, fmodQ (fmodQ (Constants.float_pi / 4 + -Constants.ROTATION_SPEED) (2 * Constants.float_pi) + Constants.ROTATION_SPEED) (2 * Constants.float_pi)⟩ : Player) = ⟨2, 2, Constants.float_pi / 4⟩
  rw [hd1, hd2]

/-- C7 as amended: a tick skips re-rendering exactly when no
movement/rotation key is active this tick and the inter-frame interval
has not yet elapsed.  The moved flag that forces a re-render records key
activity, not an actual pose change: it is also set when every attempted
move is rejected by a wall or when rotations cancel, as the
counterexample shows. -/
theorem claimC7_amended (fcos fsin : ℚ → ℚ) (m : GameMap) (keys : Keys)
    (p : Player) (tnow tlast : ℚ) :
    (Game.update fcos fsin m keys p tnow tlast).2.1 = false ↔
      ((keys.w || keys.s || keys.a || keys.d || keys.left || keys.right) = false ∧
       tnow - tlast ≤ 1 / 60) := by
  unfold Game.update
  by_cases hc : (update_player_movement fcos fsin m keys p).2 = true ∨
      tnow - tlast > 1 / 60
  · rw [if_pos hc]
    show (true = false) ↔ _
    constructor
    · intro h
      exact absurd h (by simp)
    · intro h
      obtain ⟨hk, ht⟩ := h
      exfalso
      rcases hc with hm | hgt
      · rw [update_player_movement_snd, hk] at hm
        exact Bool.noConfusion hm
      · linarith
  · rw [if_neg hc]
    push_neg at hc
    obtain ⟨hm, ht⟩ := hc
    show (false = false) ↔ _
    constructor
    · intro _
      refine ⟨?_, ht⟩
      rw [update_player_movement_snd] at hm
      exact Bool.eq_false_iff.mpr hm
    · intro _
      rfl
